import Mathlib

/-!
# AsyncFlow: verification of the simulation-engine specification

A shallow embedding of the parts of the AsyncFlow discrete-event simulator
that the verified properties talk about, translated from the Python sources:

* `src/app/config/rqs_state.py`            (`RequestState`, string hops)
* `src/app/core/runtime/edge.py`           (`EdgeRuntime._deliver`)
* `src/app/core/runtime/client.py`         (`ClientRuntime._forwarder`)
* `src/app/runtime/actors/client.py`       (`ClientRuntime._forwarder`)
* `src/app/runtime/actors/server.py`       (`ServerRuntime._handle_request`)
* `src/app/runtime/engine/server.py`       (`ServerRuntime._forwarder`)
* `src/app/core/event_samplers/poisson_poisson.py`
* `src/app/metrics/collector.py`           (`SampledMetricCollector`)
* `src/app/samplers/common_helpers.py`     (`general_sampler` and helpers)
* `src/app/schemas/system_topology/full_system_topology.py` (id uniqueness)
* `src/asyncflow/schemas/event/injection.py` (`Event` validation)

Simulated time and all sampled quantities are modelled by `ℚ` (the Python
code uses IEEE floats; none of the verified properties depends on rounding).
Random draws are modelled as explicit input streams or arguments: the numpy
`Generator` is consumed in a deterministic order, so each function receives
the values of the draws it performs.

The file is organised as definitions first, theorems afterwards.
-/

namespace AsyncFlow

/-! ## Request state with string hops (`src/app/config/rqs_state.py`) -/

/-- Hop record used by `app/config/rqs_state.py`: `record_hop` stores the
string `f"{node_name}@{now:.3f}"`.  We keep the two components (name and
time) as a pair instead of the rendered decimal string; every property we
state reads only the name and the time. -/
structure HopRec where
  node_name : String
  t : ℚ
  deriving DecidableEq, Repr

/-- The `RequestState` from `src/app/config/rqs_state.py`: the token threaded
through the topology. -/
structure RequestState where
  id : ℤ
  initial_time : ℚ
  finish_time : Option ℚ := none
  history : List HopRec := []
  deriving DecidableEq, Repr

/-- The `RequestState.record_hop`: append a record of visiting a node or edge. -/
def RequestState.record_hop (s : RequestState) (node_name : String) (now : ℚ) :
    RequestState :=
  { s with history := s.history ++ [⟨node_name, now⟩] }

/-- The `RequestState.latency`: `finish_time - initial_time`, or `None` if the
request has no finish time yet. -/
def RequestState.latency (s : RequestState) : Option ℚ :=
  match s.finish_time with
  | none => none
  | some f => some (f - s.initial_time)

/-! ## Edge runtime (`src/app/core/runtime/edge.py`)

`EdgeRuntime._deliver` draws one uniform value; if it is below the edge's
`dropout_rate` the request is dropped (a `"-dropped"` hop is recorded and
nothing is put into the target inbox), otherwise the process waits the
sampled transit time, records a hop with the edge id and puts the state
into the target inbox.  The uniform draw `u` and the sampled transit time
(`general_sampler(latency, rng)`) are passed in explicitly. -/

/-- Static edge data used by `_deliver` (subset of the `Edge` schema). -/
structure EdgeConfig where
  id : String
  dropout_rate : ℚ
  deriving DecidableEq, Repr

/-- Observable effects of one `_deliver` process: the timeouts it performed
and the states it put into the target inbox, plus the final request state. -/
structure DeliverResult where
  waits : List ℚ
  puts : List RequestState
  final : RequestState
  deriving DecidableEq, Repr

/-- The `EdgeRuntime._deliver`, translated from `src/app/core/runtime/edge.py`.
`u` is the value of `self.rng.uniform()`, `transit` the value of
`general_sampler(random_variable, self.rng)`, `now` the value of
`self.env.now` when the process starts. -/
def EdgeRuntime.deliver (edge : EdgeConfig) (u transit now : ℚ)
    (state : RequestState) : DeliverResult :=
  if u < edge.dropout_rate then
    let s1 : RequestState := { state with finish_time := some now }
    let s2 := s1.record_hop (edge.id ++ "-dropped") now
    { waits := [], puts := [], final := s2 }
  else
    let s1 := (state.record_hop edge.id (now + transit))
    { waits := [transit], puts := [s1], final := s1 }

/-! ## Client runtime

Two snapshots of `ClientRuntime._forwarder` are in the tree:

* `src/app/core/runtime/client.py` decides "first visit vs. return" by the
  `component_type` of `history[-2]` (the hop recorded just before the
  client hop) and on return sets `finish_time` and puts the state into
  the completed store;
* `src/app/runtime/actors/client.py` decides by `len(state.history) > 2`
  and on return additionally appends `finish_time` to `_rqs_time_series`
  and `finish_time - initial_time` to `_rqs_latencies`.

Both use the typed request state of `app/runtime/rqs_state.py` (absent
from the tree; its shape — `record_hop(component_type, component_id, now)`
appending a hop object with a `component_type` field — is fixed by these
two call sites and by the spec's `Hop` table). -/

/-- The `SystemNodes` / `SystemEdges` categories that can appear as the
`component_type` of a typed hop. -/
inductive ComponentType where
  | generator
  | client
  | server
  | load_balancer
  | network
  deriving DecidableEq, Repr

/-- Typed hop (`Hop` of the spec data model; the object appended by the
typed `record_hop`). -/
structure THop where
  component_type : ComponentType
  component_id : String
  t : ℚ
  deriving DecidableEq, Repr

/-- Typed request state used by the `app/runtime` and `app/core/runtime`
client forwarders. -/
structure TRequestState where
  id : ℤ
  initial_time : ℚ
  finish_time : Option ℚ := none
  history : List THop := []
  deriving DecidableEq, Repr

/-- Typed `record_hop(component_type, component_id, now)`. -/
def TRequestState.record_hop (s : TRequestState) (c : ComponentType)
    (cid : String) (now : ℚ) : TRequestState :=
  { s with history := s.history ++ [⟨c, cid, now⟩] }

/-- What the client does with a popped request: forward it to
`out_edge.transport`, or complete it (put it into the completed store). -/
inductive ClientAction where
  | forwarded
  | completed
  deriving DecidableEq, Repr

/-- Python `lst[-2]`: raises `IndexError` (here `none`) when the list has
fewer than two elements. -/
def pyPenultimate (l : List THop) : Option THop :=
  if l.length < 2 then none else l.get? (l.length - 2)

/-- One iteration of `ClientRuntime._forwarder` from
`src/app/core/runtime/client.py`, acting on the request `s` popped from
`client_box` at time `now`: record a client hop, then complete the request
iff `history[-2].component_type != SystemNodes.GENERATOR`, otherwise
forward it.  Returns `none` on the `IndexError` of `history[-2]`. -/
def coreClientForwarderStep (clientId : String) (now : ℚ)
    (completedBox : List TRequestState) (s : TRequestState) :
    Option (List TRequestState × TRequestState × ClientAction) :=
  let s1 := s.record_hop .client clientId now
  match pyPenultimate s1.history with
  | none => none
  | some prev =>
    if prev.component_type ≠ .generator then
      let s2 : TRequestState := { s1 with finish_time := some now }
      some (completedBox ++ [s2], s2, .completed)
    else
      some (completedBox, s1, .forwarded)

/-- Per-client mutable state of `src/app/runtime/actors/client.py`. -/
structure ActorsClientState where
  rqs_latencies : List ℚ
  rqs_time_series : List ℚ
  completed_box : List TRequestState
  deriving DecidableEq, Repr

/-- One iteration of `ClientRuntime._forwarder` from
`src/app/runtime/actors/client.py`: record a client hop, then complete the
request iff `len(state.history) > 2` (recording the finish time and the
latency), otherwise forward it. -/
def actorsClientForwarderStep (clientId : String) (now : ℚ)
    (c : ActorsClientState) (s : TRequestState) :
    ActorsClientState × TRequestState × ClientAction :=
  let s1 := s.record_hop .client clientId now
  if 2 < s1.history.length then
    let s2 : TRequestState := { s1 with finish_time := some now }
    ({ rqs_latencies := c.rqs_latencies ++ [now - s2.initial_time],
       rqs_time_series := c.rqs_time_series ++ [now],
       completed_box := c.completed_box ++ [s2] }, s2, .completed)
  else
    (c, s1, .forwarded)

/-! ## Server runtime (`src/app/runtime/actors/server.py`,
`src/app/runtime/engine/server.py`)

A handler selects an endpoint, sums `necessary_ram` over its RAM steps,
acquires that amount from the RAM container when it is non-zero, executes
the steps in order — each CPU step acquires one core, waits `cpu_time` and
releases the core; each IO step waits `io_waiting_time` without a core;
RAM steps do nothing — releases the RAM and forwards the request to the
outbound edge.  The two snapshots have the same step-execution body; we
model the sequence of container operations and timeouts a handler performs
(its only observable effects besides hop recording). -/

/-- An endpoint step (`Step` schema): the `kind` enum together with the
single entry of its `step_operation` dictionary (`cpu_time`,
`io_waiting_time` or `necessary_ram`; the schema validator enforces
exactly one coherent entry). -/
inductive Step where
  | cpuOp (cpu_time : ℚ)
  | ioOp (io_waiting_time : ℚ)
  | ramOp (necessary_ram : ℚ)
  deriving DecidableEq, Repr

/-- One observable action of a server handler: a container operation on
the RAM or CPU container, a timeout, or the final `out_edge.transport`. -/
inductive ServerOp where
  | ramGet (n : ℚ)
  | ramPut (n : ℚ)
  | cpuGet (n : ℚ)
  | cpuPut (n : ℚ)
  | timeoutOp (d : ℚ)
  | transportOut
  deriving DecidableEq, Repr

/-- The `total_ram`: `sum(step.step_operation[NECESSARY_RAM] for step in steps
if isinstance(step.kind, EndpointStepRAM))`. -/
def totalRam (steps : List Step) : ℚ :=
  (steps.filterMap fun st =>
    match st with
    | .ramOp n => some n
    | _ => none).sum

/-- The operations performed by the step-execution loop for one step
(the body of `for step in selected_endpoint.steps`). -/
def stepOps : Step → List ServerOp
  | .cpuOp t => [.cpuGet 1, .timeoutOp t, .cpuPut 1]
  | .ioOp t => [.timeoutOp t]
  | .ramOp _ => []

/-- The full operation sequence of `ServerRuntime._handle_request`
(`src/app/runtime/actors/server.py`; the loop body of
`ServerRuntime._forwarder` in `src/app/runtime/engine/server.py` is
identical) for the selected endpoint's steps: RAM acquired up front when
`total_ram` is truthy (non-zero), each step executed in order, RAM
released at the end, then the request forwarded. -/
def handleRequestOps (steps : List Step) : List ServerOp :=
  let total_ram := totalRam steps
  (if total_ram ≠ 0 then [ServerOp.ramGet total_ram] else []) ++
    (steps.flatMap stepOps) ++
    (if total_ram ≠ 0 then [ServerOp.ramPut total_ram] else []) ++
    [ServerOp.transportOut]

/-- Total amount acquired from the RAM container in a sequence of handler
operations. -/
def ramGotTotal (ops : List ServerOp) : ℚ :=
  (ops.filterMap fun o =>
    match o with
    | .ramGet n => some n
    | _ => none).sum

/-- Total amount released into the RAM container in a sequence of handler
operations. -/
def ramPutTotal (ops : List ServerOp) : ℚ :=
  (ops.filterMap fun o =>
    match o with
    | .ramPut n => some n
    | _ => none).sum

/-- Number of `cpu.get(1)` calls in a sequence of handler operations. -/
def cpuGetCount (ops : List ServerOp) : ℕ :=
  ops.countP fun o =>
    match o with
    | .cpuGet _ => true
    | _ => false

/-- Number of `cpu.put(1)` calls in a sequence of handler operations. -/
def cpuPutCount (ops : List ServerOp) : ℕ :=
  ops.countP fun o =>
    match o with
    | .cpuPut _ => true
    | _ => false

/-- Test for RAM container operations (used to state that the step loop
itself never touches the RAM container). -/
def isRamOp : ServerOp → Bool
  | .ramGet _ => true
  | .ramPut _ => true
  | _ => false

/-! ## Poisson-Poisson inter-arrival sampler
(`src/app/core/event_samplers/poisson_poisson.py`)

`poisson_poisson_sampling` keeps a virtual clock `now`, a `window_end` and
an aggregate rate `Λ`.  Random draws are modelled as explicit streams:
`poissonDraws k` is the value of the k-th `poisson_variable_generator`
call and `uniformDraws k` the value of the k-th
`uniform_variable_generator` call.  The map `x ↦ -log(1 - x)` applied to
the protected uniform value has no exact rational form, so it is a
parameter `negLog` of the configuration; the control flow we verify does
not depend on its values. -/

/-- The protection floor `1e-15` applied to the uniform draw. -/
def ppEpsilon : ℚ := 1 / 10 ^ 15

/-- Input data and draw streams of `poisson_poisson_sampling`. -/
structure PPConfig where
  total_simulation_time : ℚ
  mean_rpm_per_user : ℚ
  sampling_window_s : ℚ
  poissonDraws : ℕ → ℕ
  uniformDraws : ℕ → ℚ
  negLog : ℚ → ℚ

/-- Loop state of `poisson_poisson_sampling` (`now`, `window_end`,
`Lambda`) together with the consumption indices of the two draw streams. -/
structure PPState where
  now : ℚ
  window_end : ℚ
  lambda : ℚ
  uIdx : ℕ
  pIdx : ℕ
  deriving DecidableEq, Repr

/-- Initial loop state: `now = 0.0`, `window_end = 0.0`, `Lambda = 0.0`. -/
def ppInit : PPState := ⟨0, 0, 0, 0, 0⟩

/-- The window (re)sampling at the top of the loop body: when
`now >= window_end`, set `window_end = now + sampling_window_s`, draw
`users` and set `Lambda = users * (mean_rpm_per_user / 60)`. -/
def ppResample (cfg : PPConfig) (s : PPState) : PPState :=
  if s.window_end ≤ s.now then
    { s with
        window_end := s.now + cfg.sampling_window_s,
        lambda := (cfg.poissonDraws s.pIdx : ℚ) * (cfg.mean_rpm_per_user / 60),
        pIdx := s.pIdx + 1 }
  else s

/-- The gap `Δt = -log(1 - max(u, 1e-15)) / Λ` computed from the next
uniform draw of state `s` (after the window resampling). -/
def ppDelta (cfg : PPConfig) (s : PPState) : ℚ :=
  cfg.negLog (max (cfg.uniformDraws s.uIdx) ppEpsilon) / s.lambda

/-- One iteration of the `while now < simulation_time` loop of
`poisson_poisson_sampling`.  `none` means the generator stops (loop
condition false, or the `break` when the gap passes the horizon); `some
(s2, g)` means the loop continues in state `s2` after yielding the gaps in
`g` (`none` = no yield, `some dt` = `yield dt`). -/
def ppIter (cfg : PPConfig) (s : PPState) : Option (PPState × Option ℚ) :=
  if s.now < cfg.total_simulation_time then
    let s1 := ppResample cfg s
    if s1.lambda ≤ 0 then
      some ({ s1 with now := s1.window_end }, none)
    else
      let delta_t := ppDelta cfg s1
      let s2 : PPState := { s1 with uIdx := s1.uIdx + 1 }
      if cfg.total_simulation_time < s2.now + delta_t then
        none
      else if s2.window_end ≤ s2.now + delta_t then
        some ({ s2 with now := s2.window_end }, none)
      else
        some ({ s2 with now := s2.now + delta_t }, some delta_t)
  else none

/-! ## Sampled-metric collector (`src/app/metrics/collector.py`)

`_build_time_series` loops forever: each iteration first yields
`timeout(sample_period)` and only then appends, for every edge whose
`enabled_metrics` contains the concurrent-connection key, the edge gauge,
and for every server with the three mandatory keys, the three server
gauges.  Live gauges are modelled as functions of the simulated time. -/

/-- One edge as the collector sees it: whether the
`EDGE_CONCURRENT_CONNECTION` key is in its `enabled_metrics`, and the
value of `edge.concurrent_connections` over time. -/
structure CollectorEdge where
  conn_enabled : Bool
  concurrent_connections : ℚ → ℤ

/-- One server as the collector sees it: whether all three mandatory keys
are in its `enabled_metrics`, and the values of `ram_in_use`,
`io_queue_len` and `ready_queue_len` over time. -/
structure CollectorServer where
  keys_enabled : Bool
  ram_in_use : ℚ → ℤ
  io_queue_len : ℚ → ℤ
  ready_queue_len : ℚ → ℤ

/-- What one loop iteration appends, with the simulated time at which the
appends happen. -/
structure SampleTick where
  t : ℚ
  edge_values : List ℤ
  server_values : List (ℤ × ℤ × ℤ)

/-- The appends performed by one iteration of `_build_time_series` at
time `t`. -/
def collectorTick (edges : List CollectorEdge) (servers : List CollectorServer)
    (t : ℚ) : SampleTick :=
  { t := t,
    edge_values :=
      (edges.filter fun e => e.conn_enabled).map
        fun e => e.concurrent_connections t,
    server_values :=
      (servers.filter fun sv => sv.keys_enabled).map
        fun sv => (sv.ram_in_use t, sv.io_queue_len t, sv.ready_queue_len t) }

/-- The `n` iterations of `_build_time_series` starting at simulated time
`now`: each iteration waits `period` and then appends. -/
def collectorRun (edges : List CollectorEdge) (servers : List CollectorServer)
    (period : ℚ) : ℕ → ℚ → List SampleTick
  | 0, _ => []
  | n + 1, now =>
      collectorTick edges servers (now + period) ::
        collectorRun edges servers period n (now + period)

/-! ## Sampler layer (`src/app/samplers/common_helpers.py`)

Each helper performs exactly one draw on the numpy generator; we model
the helpers by the call they issue (which function of the generator, with
which arguments) — the verified property is about the arguments passed,
not about the distribution of the returned floats. -/

/-- The distributions of `app.config.constants.Distribution` plus the
`UNIFORM` member matched by `general_sampler`. -/
inductive Distribution where
  | poisson
  | normal
  | log_normal
  | exponential
  | uniform
  deriving DecidableEq, Repr

/-- The `RVConfig`: mean, distribution and optional variance. -/
structure RVConfig where
  mean : ℚ
  distribution : Distribution
  variance : Option ℚ
  deriving DecidableEq, Repr

/-- A single call to the numpy generator with its arguments. -/
inductive RngCall where
  | randomU
  | poissonCall (mean : ℚ)
  | normalCall (loc scale : ℚ)
  | lognormalCall (mean sigma : ℚ)
  | exponentialCall (scale : ℚ)
  deriving DecidableEq, Repr

/-- The `uniform_variable_generator`: `rng.random()`. -/
def uniform_variable_generator : RngCall := .randomU

/-- The `poisson_variable_generator(mean, rng)`: `rng.poisson(mean)`. -/
def poisson_variable_generator (mean : ℚ) : RngCall := .poissonCall mean

/-- The `truncated_gaussian_generator(mean, variance, rng)`:
`rng.normal(mean, variance)` (the result is then clamped at 0). -/
def truncated_gaussian_generator (mean variance : ℚ) : RngCall :=
  .normalCall mean variance

/-- The `lognormal_variable_generator(mean, variance, rng)`:
`rng.lognormal(mean, variance)`. -/
def lognormal_variable_generator (mean variance : ℚ) : RngCall :=
  .lognormalCall mean variance

/-- The `exponential_variable_generator(mean, rng)`: `rng.exponential(mean)`. -/
def exponential_variable_generator (mean : ℚ) : RngCall :=
  .exponentialCall mean

/-- The `general_sampler(random_variable, rng)` from
`src/app/samplers/common_helpers.py`: dispatch on the distribution;
`none` models a failed `assert` or the unreachable-branch `ValueError`. -/
def general_sampler (rv : RVConfig) : Option RngCall :=
  match rv.distribution with
  | .uniform =>
      match rv.variance with
      | none => some uniform_variable_generator
      | some _ => none
  | dist =>
      match rv.variance with
      | none => none
      | some variance =>
          match dist with
          | .normal => some (truncated_gaussian_generator rv.mean variance)
          | .log_normal => some (lognormal_variable_generator rv.mean variance)
          | .poisson => some (poisson_variable_generator rv.mean)
          | .exponential => some (exponential_variable_generator rv.mean)
          | .uniform => none

/-! ## Topology id uniqueness
(`src/app/schemas/system_topology/full_system_topology.py`)

`TopologyNodes.unique_ids` collects `[server.id for server in servers] +
[client.id]`, counts occurrences with `Counter` and raises when some id
occurs more than once; the load balancer's id is **not** part of that
list.  `TopologyGraph.unique_ids` does the same over the edge ids. -/

/-- A `Counter` over a list of ids has a key with count `> 1`. -/
def hasDuplicate (ids : List String) : Bool :=
  ids.any fun i => 1 < ids.count i

/-- The `Client` node (only the id matters for the uniqueness check). -/
structure ClientNode where
  id : String
  deriving DecidableEq, Repr

/-- The `Server` node (only the id matters for the uniqueness check). -/
structure ServerNode where
  id : String
  deriving DecidableEq, Repr

/-- The `LoadBalancer` node (only the id matters here). -/
structure LoadBalancerNode where
  id : String
  deriving DecidableEq, Repr

/-- The `TopologyNodes`: servers, client and optional load balancer. -/
structure TopologyNodes where
  servers : List ServerNode
  client : ClientNode
  load_balancer : Option LoadBalancerNode
  deriving DecidableEq, Repr

/-- The `Edge` (the fields involved in the graph-level uniqueness check). -/
structure EdgeDef where
  id : String
  source : String
  target : String
  deriving DecidableEq, Repr

/-- The `TopologyGraph`: nodes plus edges. -/
structure TopologyGraph where
  nodes : TopologyNodes
  edges : List EdgeDef
  deriving DecidableEq, Repr

/-- The `TopologyNodes.unique_ids`: duplicate detection over
`[server.id for server in servers] + [client.id]` (the load balancer id is
not included by the source). -/
def TopologyNodes.unique_ids (n : TopologyNodes) : Except String TopologyNodes :=
  let ids := (n.servers.map ServerNode.id) ++ [n.client.id]
  if hasDuplicate ids then .error "duplicate node ids" else .ok n

/-- The `TopologyGraph.unique_ids`: duplicate detection over the edge ids. -/
def TopologyGraph.unique_ids (g : TopologyGraph) : Except String TopologyGraph :=
  if hasDuplicate (g.edges.map EdgeDef.id) then
    .error "duplicate edge ids"
  else .ok g

/-! ## Event injection schema (`src/asyncflow/schemas/event/injection.py`)

`Start.kind` is restricted by `Literal` to the two start kinds and
`End.kind` to the two end kinds; `t_start` is a `NonNegativeFloat` and
`t_end` a `PositiveFloat` (field validation), and the model validator
`ensure_start_end_compatibility` requires the end kind matching the start
kind's family and `t_start < t_end`. -/

/-- Kinds admissible in a `Start` marker. -/
inductive StartKind where
  | server_down
  | network_spike_start
  deriving DecidableEq, Repr

/-- Kinds admissible in an `End` marker. -/
inductive EndKind where
  | server_up
  | network_spike_end
  deriving DecidableEq, Repr

/-- The `Start` marker. -/
structure StartMarker where
  kind : StartKind
  t_start : ℚ
  deriving DecidableEq, Repr

/-- The `End` marker. -/
structure EndMarker where
  kind : EndKind
  t_end : ℚ
  deriving DecidableEq, Repr

/-- The `Event`: identifier, target and the two markers. -/
structure Event where
  event_id : String
  target_id : String
  startMarker : StartMarker
  endMarker : EndMarker
  deriving DecidableEq, Repr

/-- The `start_to_end` dictionary of `ensure_start_end_compatibility`. -/
def start_to_end : StartKind → EndKind
  | .server_down => .server_up
  | .network_spike_start => .network_spike_end

/-- Validation performed when an `Event` is constructed: the pydantic
field constraints (`t_start >= 0`, `t_end > 0`) followed by the model
validator (`end.kind == start_to_end[start.kind]`, then
`start.t_start < end.t_end`). -/
def validateEvent (e : Event) : Except String Event :=
  if e.startMarker.t_start < 0 then
    .error "t_start must be non-negative"
  else if e.endMarker.t_end ≤ 0 then
    .error "t_end must be positive"
  else if e.endMarker.kind ≠ start_to_end e.startMarker.kind then
    .error "incompatible start and end kinds"
  else if e.endMarker.t_end ≤ e.startMarker.t_start then
    .error "t_start must be smaller than t_end"
  else .ok e

/-- The request state a completed request ends in: client hop recorded,
`finish_time` stamped with the completion instant (both forwarder
snapshots build exactly this value on the return path). -/
def clientCompletedState (clientId : String) (now : ℚ) (s : TRequestState) :
    TRequestState :=
  { s.record_hop .client clientId now with finish_time := some now }

end AsyncFlow

namespace AsyncFlow

/-! ## Theorems -/

/-- The `history[-2]` of a list extended with one hop is the last hop of the
original list. -/
theorem pyPenultimate_concat (l : List THop) (x : THop) (h : l ≠ []) :
    pyPenultimate (l ++ [x]) = l.getLast? := by
  have hl : 0 < l.length := List.length_pos.mpr h
  unfold pyPenultimate
  have h2 : ¬ (l ++ [x]).length < 2 := by
    simp only [List.length_append, List.length_cons, List.length_nil]
    omega
  rw [if_neg h2, List.get?_eq_getElem?, List.length_append]
  simp only [List.length_cons, List.length_nil, Nat.zero_add]
  have hidx : l.length + 1 - 2 = l.length - 1 := by omega
  rw [hidx, List.getElem?_append, if_pos (by omega),
    ← List.getLast?_eq_getElem?]

/-- Claim C4: for every request handed to an edge transport exactly one of
two outcomes occurs, decided by the single uniform draw `u`: if
`u < dropout_rate` a dropped hop is recorded and nothing is put into the
target inbox; otherwise the process suspends for the sampled latency,
records a hop carrying the edge id, and puts the request into the target
inbox exactly once. -/
theorem edge_deliver_drop_or_single_put (edge : EdgeConfig)
    (u transit now : ℚ) (s : RequestState) :
    (u < edge.dropout_rate →
      (EdgeRuntime.deliver edge u transit now s).puts = [] ∧
      (EdgeRuntime.deliver edge u transit now s).waits = [] ∧
      ((EdgeRuntime.deliver edge u transit now s).final).history.getLast? =
        some ⟨edge.id ++ "-dropped", now⟩) ∧
    (¬ u < edge.dropout_rate →
      (EdgeRuntime.deliver edge u transit now s).waits = [transit] ∧
      ((EdgeRuntime.deliver edge u transit now s).puts).length = 1 ∧
      (EdgeRuntime.deliver edge u transit now s).puts =
        [s.record_hop edge.id (now + transit)] ∧
      (s.record_hop edge.id (now + transit)).history.getLast? =
        some ⟨edge.id, now + transit⟩) := by
  constructor
  · intro h
    simp [EdgeRuntime.deliver, if_pos h, RequestState.record_hop]
  · intro h
    simp [EdgeRuntime.deliver, if_neg h, RequestState.record_hop]

/-- Witness for C4: both branches evaluated at concrete inputs. -/
theorem edge_deliver_drop_or_single_put_witness :
    ((1 : ℚ)/10 < (1 : ℚ)/5 ∧
      (EdgeRuntime.deliver ⟨"e1", 1/5⟩ (1/10) (3/1000) 2
        ⟨1, 0, none, []⟩).puts = []) ∧
    (¬ (1 : ℚ)/2 < (1 : ℚ)/5 ∧
      (EdgeRuntime.deliver ⟨"e1", 1/5⟩ (1/2) (3/1000) 2
        ⟨1, 0, none, []⟩).puts.length = 1) := by
  have h1 := edge_deliver_drop_or_single_put ⟨"e1", 1/5⟩ (1/10) (3/1000) 2
    ⟨1, 0, none, []⟩
  have h2 := edge_deliver_drop_or_single_put ⟨"e1", 1/5⟩ (1/2) (3/1000) 2
    ⟨1, 0, none, []⟩
  exact ⟨⟨by norm_num, (h1.1 (by norm_num)).1⟩,
         ⟨by norm_num, (h2.2 (by norm_num)).2.1⟩⟩

/-- Claim C10: when an edge drops a request (`u < dropout_rate`), it sets
the request's `finish_time` to the current simulated time and appends a hop
named `<edge_id>-dropped`; the dropped request therefore carries a
non-`None` `finish_time` and `RequestState.latency` returns a value for it,
even though the request is never put into the target inbox. -/
theorem edge_drop_sets_finish_time (edge : EdgeConfig)
    (u transit now : ℚ) (s : RequestState) (h : u < edge.dropout_rate) :
    ((EdgeRuntime.deliver edge u transit now s).final).finish_time = some now ∧
    ((EdgeRuntime.deliver edge u transit now s).final).history.getLast? =
      some ⟨edge.id ++ "-dropped", now⟩ ∧
    ((EdgeRuntime.deliver edge u transit now s).final).latency =
      some (now - s.initial_time) ∧
    (EdgeRuntime.deliver edge u transit now s).puts = [] := by
  simp [EdgeRuntime.deliver, if_pos h, RequestState.record_hop,
    RequestState.latency]

/-- Witness for C10: a dropped request at `now = 7/2` with
`initial_time = 1/2` gets latency `3`. -/
theorem edge_drop_sets_finish_time_witness :
    (1 : ℚ)/10 < (1 : ℚ)/5 ∧
    ((EdgeRuntime.deliver ⟨"net-a", 1/5⟩ (1/10) (1/100) (7/2)
      ⟨9, 1/2, none, [⟨"gen", 1/2⟩]⟩).final).latency = some 3 := by
  refine ⟨by norm_num, ?_⟩
  have h := edge_drop_sets_finish_time ⟨"net-a", 1/5⟩ (1/10) (1/100) (7/2)
    ⟨9, 1/2, none, [⟨"gen", 1/2⟩]⟩ (by norm_num)
  have h3 := h.2.2.1
  rw [h3]
  norm_num

/-- The `ramGotTotal` distributes over list append. -/
theorem ramGotTotal_append (a b : List ServerOp) :
    ramGotTotal (a ++ b) = ramGotTotal a + ramGotTotal b := by
  simp [ramGotTotal, List.filterMap_append]

/-- The `ramPutTotal` distributes over list append. -/
theorem ramPutTotal_append (a b : List ServerOp) :
    ramPutTotal (a ++ b) = ramPutTotal a + ramPutTotal b := by
  simp [ramPutTotal, List.filterMap_append]

/-- The step-execution loop never touches the RAM container. -/
theorem stepOps_no_ram (st : Step) : ∀ o ∈ stepOps st, isRamOp o = false := by
  cases st <;> simp [stepOps, isRamOp]

/-- The step-execution loop of a whole endpoint never touches the RAM
container. -/
theorem flatMap_stepOps_no_ram (steps : List Step) :
    ∀ o ∈ steps.flatMap stepOps, isRamOp o = false := by
  intro o ho
  rw [List.mem_flatMap] at ho
  obtain ⟨st, _, hmem⟩ := ho
  exact stepOps_no_ram st o hmem

/-- A sequence without RAM operations acquires nothing from the RAM
container. -/
theorem ramGotTotal_eq_zero (ops : List ServerOp)
    (h : ∀ o ∈ ops, isRamOp o = false) : ramGotTotal ops = 0 := by
  unfold ramGotTotal
  have : ops.filterMap (fun o =>
      match o with
      | .ramGet n => some n
      | _ => none) = [] := by
    rw [List.filterMap_eq_nil_iff]
    intro o ho
    have := h o ho
    cases o <;> simp_all [isRamOp]
  rw [this]
  rfl

/-- A sequence without RAM operations releases nothing into the RAM
container. -/
theorem ramPutTotal_eq_zero (ops : List ServerOp)
    (h : ∀ o ∈ ops, isRamOp o = false) : ramPutTotal ops = 0 := by
  unfold ramPutTotal
  have : ops.filterMap (fun o =>
      match o with
      | .ramPut n => some n
      | _ => none) = [] := by
    rw [List.filterMap_eq_nil_iff]
    intro o ho
    have := h o ho
    cases o <;> simp_all [isRamOp]
  rw [this]
  rfl

/-- Within the step-execution loop every `cpu.get(1)` is matched by a
`cpu.put(1)`. -/
theorem cpu_counts_balanced_in_steps (steps : List Step) :
    cpuGetCount (steps.flatMap stepOps) = cpuPutCount (steps.flatMap stepOps) := by
  induction steps with
  | nil => rfl
  | cons st rest ih =>
    rw [List.flatMap_cons]
    unfold cpuGetCount cpuPutCount at ih ⊢
    rw [List.countP_append, List.countP_append, ih]
    have hst : (stepOps st).countP (fun o =>
        match o with
        | .cpuGet _ => true
        | _ => false) = (stepOps st).countP (fun o =>
        match o with
        | .cpuPut _ => true
        | _ => false) := by
      cases st <;> rfl
    rw [hst]

/-- Claim C3: a server handler that runs to completion conserves
resources: when the endpoint needs RAM (`R = totalRam ≠ 0`) the whole
operation sequence is a single `ram.get(R)` before any step, the steps
(which never touch the RAM container), a single `ram.put(R)` after the
last step and the final forward; every `cpu.get(1)` is matched by a
`cpu.put(1)`; total RAM got equals total RAM put for one handler, hence
for any collection of completed handlers. -/
theorem server_handler_conserves_resources (steps : List Step) :
    (totalRam steps ≠ 0 →
      handleRequestOps steps =
        ServerOp.ramGet (totalRam steps) ::
          (steps.flatMap stepOps ++
            [ServerOp.ramPut (totalRam steps), ServerOp.transportOut])) ∧
    (∀ o ∈ steps.flatMap stepOps, isRamOp o = false) ∧
    ramGotTotal (handleRequestOps steps) = totalRam steps ∧
    ramPutTotal (handleRequestOps steps) = totalRam steps ∧
    cpuGetCount (handleRequestOps steps) =
      cpuPutCount (handleRequestOps steps) ∧
    ∀ runs : List (List Step),
      (runs.map fun ep => ramGotTotal (handleRequestOps ep)).sum =
      (runs.map fun ep => ramPutTotal (handleRequestOps ep)).sum := by
  have hulen : ∀ ep : List Step,
      ramGotTotal (handleRequestOps ep) = totalRam ep ∧
      ramPutTotal (handleRequestOps ep) = totalRam ep := by
    intro ep
    simp only [handleRequestOps]
    rw [ramGotTotal_append, ramGotTotal_append, ramGotTotal_append,
      ramPutTotal_append, ramPutTotal_append, ramPutTotal_append]
    rw [ramGotTotal_eq_zero _ (flatMap_stepOps_no_ram ep),
      ramPutTotal_eq_zero _ (flatMap_stepOps_no_ram ep)]
    by_cases h : totalRam ep ≠ 0
    · rw [if_pos h, if_pos h]
      constructor
      · show ramGotTotal [ServerOp.ramGet (totalRam ep)] + 0 +
          ramGotTotal [ServerOp.ramPut (totalRam ep)] +
            ramGotTotal [ServerOp.transportOut] = totalRam ep
        simp [ramGotTotal]
      · show ramPutTotal [ServerOp.ramGet (totalRam ep)] + 0 +
          ramPutTotal [ServerOp.ramPut (totalRam ep)] +
            ramPutTotal [ServerOp.transportOut] = totalRam ep
        simp [ramPutTotal]
    · rw [if_neg h, if_neg h]
      push_neg at h
      rw [h]
      constructor
      · show ramGotTotal [] + 0 +
          ramGotTotal [] + ramGotTotal [ServerOp.transportOut] = 0
        simp [ramGotTotal]
      · show ramPutTotal [] + 0 +
          ramPutTotal [] + ramPutTotal [ServerOp.transportOut] = 0
        simp [ramPutTotal]
  refine ⟨?_, flatMap_stepOps_no_ram steps, (hulen steps).1, (hulen steps).2,
    ?_, ?_⟩
  · intro h
    simp only [handleRequestOps]
    rw [if_pos h, if_pos h]
    simp
  · simp only [handleRequestOps]
    unfold cpuGetCount cpuPutCount
    by_cases h : totalRam steps ≠ 0 <;>
      [rw [if_pos h, if_pos h]; rw [if_neg h, if_neg h]] <;>
      · simp only [List.countP_append]
        have := cpu_counts_balanced_in_steps steps
        unfold cpuGetCount cpuPutCount at this
        rw [this]
        simp [List.countP_cons, List.countP_nil]
  · intro runs
    induction runs with
    | nil => rfl
    | cons ep rest ih =>
      simp only [List.map_cons, List.sum_cons, ih, (hulen ep).1, (hulen ep).2]

/-- Witness for C3 at the S1-style endpoint
`[RAM 128, CPU 5ms, IO 20ms]`: the handler trace is a single RAM get of
128, the steps, a RAM put of 128 and the forward. -/
theorem server_handler_conserves_resources_witness :
    totalRam [Step.ramOp 128, Step.cpuOp (1/200), Step.ioOp (1/50)] ≠ 0 ∧
    handleRequestOps [Step.ramOp 128, Step.cpuOp (1/200), Step.ioOp (1/50)] =
      [ServerOp.ramGet 128, ServerOp.cpuGet 1, ServerOp.timeoutOp (1/200),
       ServerOp.cpuPut 1, ServerOp.timeoutOp (1/50), ServerOp.ramPut 128,
       ServerOp.transportOut] := by
  have h := server_handler_conserves_resources
    [Step.ramOp 128, Step.cpuOp (1/200), Step.ioOp (1/50)]
  have hval : totalRam [Step.ramOp 128, Step.cpuOp (1/200), Step.ioOp (1/50)] = 128 := by
    simp [totalRam]
  have hne : totalRam [Step.ramOp 128, Step.cpuOp (1/200), Step.ioOp (1/50)] ≠ 0 := by
    rw [hval]; norm_num
  refine ⟨hne, ?_⟩
  have heq := h.1 hne
  rw [heq, hval]
  simp [stepOps]

/-- Claim C2 (refuted by the code): the handler in both
`src/app/runtime/actors/server.py` and `src/app/runtime/engine/server.py`
acquires one core and releases it around every single CPU step: on an
endpoint with two consecutive CPU steps the trace contains
`cpu.put(1)` followed by `cpu.get(1)` between the two steps, and two
`cpu.get(1)` calls in total — the core is not held across consecutive CPU
steps.  (The repository's own test
`test_cpu_burst_reuses_single_token_no_extra_ready` and the spec require a
single token reused with no release/reacquire.) -/
theorem cpu_token_released_between_consecutive_cpu_steps :
    handleRequestOps [Step.ramOp 64, Step.cpuOp (1/250), Step.cpuOp (1/250)] =
      [ServerOp.ramGet 64,
       ServerOp.cpuGet 1, ServerOp.timeoutOp (1/250), ServerOp.cpuPut 1,
       ServerOp.cpuGet 1, ServerOp.timeoutOp (1/250), ServerOp.cpuPut 1,
       ServerOp.ramPut 64, ServerOp.transportOut] ∧
    cpuGetCount (handleRequestOps
      [Step.ramOp 64, Step.cpuOp (1/250), Step.cpuOp (1/250)]) = 2 := by
  constructor
  · simp [handleRequestOps, totalRam, stepOps]
  · simp [cpuGetCount, handleRequestOps, totalRam, stepOps, List.countP_cons]

/-- Claim C1: for every request popped from the client inbox the client
records a client hop and routes by first visit versus return, evaluated on
the hop history.  Under the documented history invariant (`history[0]` is
the generator hop and the generator type occurs nowhere else): if the last
recorded component before the client hop is of type `GENERATOR` the
request is forwarded to the outbound edge's transport; otherwise
`finish_time` is set to the current time, the per-event latency
`finish_time - initial_time` is recorded, and the request is appended to
the completed store.  Both snapshots of `_forwarder` are covered: the one
of `app/core/runtime/client.py` (hop-type test) and the one of
`app/runtime/actors/client.py` (history-length test with latency
recording). -/
theorem client_routes_first_visit_by_generator_hop
    (clientId : String) (now : ℚ) (box : List TRequestState)
    (c : ActorsClientState) (s : TRequestState)
    (genHop : THop) (rest : List THop)
    (hhist : s.history = genHop :: rest)
    (hgen : genHop.component_type = .generator)
    (hrest : ∀ hop ∈ rest, hop.component_type ≠ .generator) :
    ((∃ lh, s.history.getLast? = some lh ∧ lh.component_type = .generator) →
      coreClientForwarderStep clientId now box s =
        some (box, s.record_hop .client clientId now, .forwarded) ∧
      actorsClientForwarderStep clientId now c s =
        (c, s.record_hop .client clientId now, .forwarded)) ∧
    ((∃ lh, s.history.getLast? = some lh ∧ lh.component_type ≠ .generator) →
      coreClientForwarderStep clientId now box s =
        some (box ++ [clientCompletedState clientId now s],
              clientCompletedState clientId now s, .completed) ∧
      actorsClientForwarderStep clientId now c s =
        ({ rqs_latencies := c.rqs_latencies ++ [now - s.initial_time],
           rqs_time_series := c.rqs_time_series ++ [now],
           completed_box := c.completed_box ++
             [clientCompletedState clientId now s] },
         clientCompletedState clientId now s, .completed)) := by
  have hne : s.history ≠ [] := by rw [hhist]; exact List.cons_ne_nil _ _
  have hpen : pyPenultimate ((s.record_hop .client clientId now).history) =
      s.history.getLast? := by
    simp only [TRequestState.record_hop]
    exact pyPenultimate_concat _ _ hne
  cases rest with
  | nil =>
    have hlast : s.history.getLast? = some genHop := by
      rw [hhist]; rfl
    constructor
    · intro _
      constructor
      · simp only [coreClientForwarderStep, hpen, hlast, hgen]
        simp
      · simp only [actorsClientForwarderStep, TRequestState.record_hop, hhist]
        simp
    · intro ⟨lh, hlh, hlht⟩
      rw [hlast] at hlh
      cases hlh
      exact absurd hgen hlht
  | cons r rs =>
    have hlast : s.history.getLast? = (r :: rs).getLast? := by
      rw [hhist, List.getLast?_cons_cons]
    have hmem : (r :: rs).getLast (List.cons_ne_nil r rs) ∈ r :: rs :=
      List.getLast_mem _
    have hlastval : (r :: rs).getLast? =
        some ((r :: rs).getLast (List.cons_ne_nil r rs)) :=
      List.getLast?_eq_getLast_of_ne_nil _
    have hlt : ((r :: rs).getLast (List.cons_ne_nil r rs)).component_type ≠
        .generator := hrest _ hmem
    constructor
    · intro ⟨lh, hlh, hlht⟩
      rw [hlast, hlastval] at hlh
      cases hlh
      exact absurd hlht hlt
    · intro _
      constructor
      · simp only [coreClientForwarderStep, hpen, hlast, hlastval]
        rw [if_pos hlt]
        simp [clientCompletedState]
      · simp only [actorsClientForwarderStep, TRequestState.record_hop, hhist,
          clientCompletedState]
        have hlen : 2 < ((genHop :: r :: rs) ++ [(⟨.client, clientId, now⟩ : THop)]).length := by
          simp only [List.length_append, List.length_cons, List.length_nil]
          omega
        simp only [if_pos hlen]

/-- Witness for C1: a first-visit request (history `[generator]`) is
forwarded and a returning request (history `[generator, network, client,
network, server, network]`) is completed with latency `now - initial`. -/
theorem client_routes_first_visit_by_generator_hop_witness :
    (([⟨.generator, "gen-1", 0⟩] : List THop) =
        (⟨.generator, "gen-1", 0⟩ : THop) :: [] ∧
      (⟨.generator, "gen-1", (0 : ℚ)⟩ : THop).component_type =
        .generator) ∧
    actorsClientForwarderStep "cli" 1
      ⟨[], [], []⟩ ⟨1, 0, none, [⟨.generator, "gen-1", 0⟩]⟩ =
      (⟨[], [], []⟩,
       ⟨1, 0, none, [⟨.generator, "gen-1", 0⟩, ⟨.client, "cli", 1⟩]⟩,
       .forwarded) := by
  have h := client_routes_first_visit_by_generator_hop "cli" 1 []
    ⟨[], [], []⟩ ⟨1, 0, none, [⟨.generator, "gen-1", 0⟩]⟩
    ⟨.generator, "gen-1", 0⟩ [] rfl rfl (by intro hop hm; cases hm)
  refine ⟨⟨rfl, rfl⟩, ?_⟩
  have h2 := (h.1 ⟨⟨.generator, "gen-1", 0⟩, rfl, rfl⟩).2
  rw [h2]
  rfl

/-- Claim C5 (amended: a gap landing exactly on the horizon is still
yielded): one loop iteration of the Poisson-Poisson sampler, with `s1` the
state after the window resampling at the top of the body, satisfies: when
`Λ ≤ 0` the clock jumps to the window end and nothing is yielded; a gap is
yielded only when `Λ > 0` and `now + Δt` does not pass the horizon and
lies strictly inside the window; when `now + Δt` exceeds the horizon the
generator stops; when the gap lands on or beyond the window boundary the
clock advances to the boundary without a yield and the resulting state
has `now ≥ window_end`, so the next iteration re-samples the user count. -/
theorem poisson_poisson_window_and_horizon (cfg : PPConfig) (s s1 : PPState)
    (hs1 : ppResample cfg s = s1) :
    (s.now < cfg.total_simulation_time → s1.lambda ≤ 0 →
      ppIter cfg s = some ({ s1 with now := s1.window_end }, none)) ∧
    (∀ s2 dt, ppIter cfg s = some (s2, some dt) →
      0 < s1.lambda ∧
      dt = ppDelta cfg s1 ∧
      s2 = { s1 with uIdx := s1.uIdx + 1, now := s1.now + dt } ∧
      s1.now + dt ≤ cfg.total_simulation_time ∧
      s1.now + dt < s1.window_end) ∧
    (s.now < cfg.total_simulation_time → 0 < s1.lambda →
      cfg.total_simulation_time < s1.now + ppDelta cfg s1 →
      ppIter cfg s = none) ∧
    (s.now < cfg.total_simulation_time → 0 < s1.lambda →
      s1.now + ppDelta cfg s1 ≤ cfg.total_simulation_time →
      s1.window_end ≤ s1.now + ppDelta cfg s1 →
      ppIter cfg s =
        some ({ s1 with uIdx := s1.uIdx + 1, now := s1.window_end }, none) ∧
      ({ s1 with uIdx := s1.uIdx + 1, now := s1.window_end } : PPState).window_end ≤
        ({ s1 with uIdx := s1.uIdx + 1, now := s1.window_end } : PPState).now) := by
  subst hs1
  refine ⟨?_, ?_, ?_, ?_⟩
  · intro hnow hl
    unfold ppIter
    rw [if_pos hnow, if_pos hl]
  · intro s2 dt h
    unfold ppIter at h
    by_cases h1 : s.now < cfg.total_simulation_time
    · rw [if_pos h1] at h
      by_cases h2 : (ppResample cfg s).lambda ≤ 0
      · rw [if_pos h2] at h
        simp only [Option.some.injEq, Prod.mk.injEq] at h
        exact absurd h.2 (by simp)
      · rw [if_neg h2] at h
        by_cases h3 : cfg.total_simulation_time <
            (ppResample cfg s).now + ppDelta cfg (ppResample cfg s)
        · rw [if_pos h3] at h
          exact Option.noConfusion h
        · rw [if_neg h3] at h
          by_cases h4 : (ppResample cfg s).window_end ≤
              (ppResample cfg s).now + ppDelta cfg (ppResample cfg s)
          · rw [if_pos h4] at h
            simp only [Option.some.injEq, Prod.mk.injEq] at h
            exact absurd h.2 (by simp)
          · rw [if_neg h4] at h
            simp only [Option.some.injEq, Prod.mk.injEq] at h
            obtain ⟨hsa, hdt⟩ := h
            cases hdt
            exact ⟨lt_of_not_le h2, rfl, hsa.symm, le_of_not_lt h3,
              lt_of_not_le h4⟩
    · rw [if_neg h1] at h
      exact Option.noConfusion h
  · intro hnow hl hhor
    unfold ppIter
    rw [if_pos hnow, if_neg (not_le.mpr hl), if_pos]
    exact hhor
  · intro hnow hl hhor hwin
    unfold ppIter
    rw [if_pos hnow, if_neg (not_le.mpr hl), if_neg (not_lt.mpr hhor),
      if_pos hwin]
    exact ⟨rfl, le_refl _⟩

/-- Witness for C5 (amended theorem): the `Λ ≤ 0` branch at a concrete
configuration (`poissonDraws` constantly `0`), evaluated from the initial
state: the clock jumps to the window end (`60`) and nothing is yielded. -/
theorem poisson_poisson_window_and_horizon_witness :
    ((ppInit.now : ℚ) < 3600 ∧
      (ppResample ⟨3600, 60, 60, fun _ => 0, fun _ => 1/2, fun _ => 1⟩
        ppInit).lambda ≤ 0) ∧
    ppIter ⟨3600, 60, 60, fun _ => 0, fun _ => 1/2, fun _ => 1⟩ ppInit =
      some (⟨60, 60, 0, 0, 1⟩, none) := by
  have h := poisson_poisson_window_and_horizon
    ⟨3600, 60, 60, fun _ => 0, fun _ => 1/2, fun _ => 1⟩ ppInit
    (ppResample ⟨3600, 60, 60, fun _ => 0, fun _ => 1/2, fun _ => 1⟩ ppInit)
    rfl
  have hres : ppResample ⟨3600, 60, 60, fun _ => 0, fun _ => 1/2, fun _ => 1⟩
      ppInit = ⟨0, 60, 0, 0, 1⟩ := by
    unfold ppResample ppInit
    norm_num
  have hnow : (ppInit.now : ℚ) < 3600 := by norm_num [ppInit]
  have hlam : (ppResample ⟨3600, 60, 60, fun _ => 0, fun _ => 1/2, fun _ => 1⟩
      ppInit).lambda ≤ 0 := by rw [hres]
  refine ⟨⟨hnow, hlam⟩, ?_⟩
  have h2 := h.1 hnow hlam
  rw [h2, hres]

/-- Counterexample to C5 as stated: the sampler yields a gap that lands
exactly on the horizon (`now + Δt = total_simulation_time`), not strictly
inside it — the loop only breaks when `now + Δt > horizon`.  The stream
values model a uniform draw `u` with `-log(1 - u) = 10` (a point of
`(0, 1)`), a user draw of `1` and `rpm = 60`, so `Λ = 1` and `Δt = 10`
against a horizon of `10`. -/
theorem poisson_poisson_yields_gap_landing_on_horizon :
    ppIter ⟨10, 60, 60, fun _ => 1, fun _ => 9/10, fun _ => 10⟩ ppInit =
      some (⟨10, 60, 1, 1, 1⟩, some 10) ∧
    ppInit.now + 10 =
      (⟨10, 60, 60, fun _ => 1, fun _ => 9/10, fun _ => 10⟩ :
        PPConfig).total_simulation_time ∧
    ¬ (ppInit.now + 10 <
      (⟨10, 60, 60, fun _ => 1, fun _ => 9/10, fun _ => 10⟩ :
        PPConfig).total_simulation_time) := by
  refine ⟨?_, by norm_num [ppInit], by norm_num [ppInit]⟩
  unfold ppIter ppResample ppDelta ppEpsilon ppInit
  norm_num

/-- The `collectorRun` sample times, relative to an arbitrary start time. -/
theorem collectorRun_times (edges : List CollectorEdge)
    (servers : List CollectorServer) (period : ℚ) (n : ℕ) (now : ℚ) :
    (collectorRun edges servers period n now).map SampleTick.t =
      (List.range n).map fun k : ℕ => now + ((k : ℚ) + 1) * period := by
  induction n generalizing now with
  | zero => rfl
  | succ m ih =>
    rw [collectorRun, List.range_succ_eq_map]
    simp only [List.map_cons, List.map_map, collectorTick]
    congr 1
    · push_cast
      ring
    · rw [ih]
      apply List.map_congr_left
      intro k _
      simp only [Function.comp_apply]
      push_cast
      ring

/-- Every tick of a collector run is the gauges read at its own time. -/
theorem collectorRun_ticks (edges : List CollectorEdge)
    (servers : List CollectorServer) (period : ℚ) (n : ℕ) (now : ℚ) :
    ∀ st ∈ collectorRun edges servers period n now,
      st = collectorTick edges servers st.t := by
  induction n generalizing now with
  | zero => intro st h; cases h
  | succ m ih =>
    intro st h
    rw [collectorRun, List.mem_cons] at h
    rcases h with h | h
    · rw [h]
      rfl
    · exact ih _ st h

/-- Claim C6: the sampled-metric collector never appends a sample at
`t = 0`: each iteration first waits `sample_period_s` and only then
appends the enabled edge and server gauge values read at that instant, so
starting at `t = 0` the k-th appended sample (1-indexed, position `k-1`
of the run) is taken at simulated time `k · sample_period_s`, which is
positive whenever the period is. -/
theorem collector_no_sample_at_zero (edges : List CollectorEdge)
    (servers : List CollectorServer) (period : ℚ) (n : ℕ) :
    (collectorRun edges servers period n 0).map SampleTick.t =
      (List.range n).map (fun k : ℕ => ((k : ℚ) + 1) * period) ∧
    (∀ st ∈ collectorRun edges servers period n 0,
      st = collectorTick edges servers st.t) ∧
    (0 < period → ∀ st ∈ collectorRun edges servers period n 0, 0 < st.t) := by
  have htimes := collectorRun_times edges servers period n 0
  simp only [zero_add] at htimes
  refine ⟨htimes, collectorRun_ticks edges servers period n 0, ?_⟩
  intro hp st hst
  have hmem : st.t ∈ (collectorRun edges servers period n 0).map SampleTick.t :=
    List.mem_map_of_mem SampleTick.t hst
  rw [htimes] at hmem
  rw [List.mem_map] at hmem
  obtain ⟨k, _, hk⟩ := hmem
  rw [← hk]
  have : (0 : ℚ) < (k : ℚ) + 1 := by positivity
  exact mul_pos this hp

/-- Witness for C6: two iterations with period `1/2` sample at `1/2` and
`1`, both positive. -/
theorem collector_no_sample_at_zero_witness :
    (0 : ℚ) < 1/2 ∧
    (collectorRun [] [] (1/2) 2 0).map SampleTick.t = [1/2, 1] ∧
    ∀ st ∈ collectorRun ([] : List CollectorEdge)
      ([] : List CollectorServer) (1/2) 2 0, 0 < st.t := by
  have h := collector_no_sample_at_zero [] [] (1/2) 2
  refine ⟨by norm_num, ?_, h.2.2 (by norm_num)⟩
  rw [h.1]
  norm_num [List.range_succ]

/-- Claim C7 (refuted by the code): `general_sampler` on a `log_normal`
config calls `rng.lognormal(mean, variance)` — the second argument is the
configured variance itself, not its square root (for `variance = 4` the
code passes `4` although `sqrt 4 = 2`). -/
theorem lognormal_sampler_passes_variance_directly :
    (∀ m v : ℚ, general_sampler ⟨m, .log_normal, some v⟩ =
      some (RngCall.lognormalCall m v)) ∧
    general_sampler ⟨0, .log_normal, some 4⟩ =
      some (RngCall.lognormalCall 0 4) ∧
    (2 : ℚ) * 2 = 4 ∧ (4 : ℚ) ≠ 2 := by
  exact ⟨fun m v => rfl, rfl, by norm_num, by norm_num⟩

/-- The `Counter`-style duplicate detection is the negation of `Nodup`. -/
theorem hasDuplicate_eq_false_iff (ids : List String) :
    hasDuplicate ids = false ↔ ids.Nodup := by
  unfold hasDuplicate
  rw [List.any_eq_false, List.nodup_iff_count_le_one]
  constructor
  · intro h a
    by_cases ha : a ∈ ids
    · have := h a ha
      simp only [decide_eq_true_eq, not_lt] at this
      exact this
    · rw [List.count_eq_zero_of_not_mem ha]
      omega
  · intro h i _
    simp only [decide_eq_true_eq, not_lt]
    exact h i

/-- Counterexample to C8 as stated: a payload in which the load balancer
and the client share the id `"x"` passes `TopologyNodes.unique_ids` — the
validator only collects the server ids and the client id. -/
theorem lb_id_duplicate_passes_unique_ids :
    TopologyNodes.unique_ids ⟨[⟨"s1"⟩], ⟨"x"⟩, some ⟨"x"⟩⟩ =
      .ok ⟨[⟨"s1"⟩], ⟨"x"⟩, some ⟨"x"⟩⟩ ∧
    (⟨[⟨"s1"⟩], ⟨"x"⟩, some ⟨"x"⟩⟩ : TopologyNodes).client.id = "x" ∧
    (⟨[⟨"s1"⟩], ⟨"x"⟩, some ⟨"x"⟩⟩ : TopologyNodes).load_balancer =
      some ⟨"x"⟩ := by
    refine ⟨?_, rfl, rfl⟩
    unfold TopologyNodes.unique_ids
    rw [if_neg]
    simp [hasDuplicate]

/-- Claim C8 (amended: the node-uniqueness check covers the servers and
the client but not the load balancer's id): `TopologyNodes.unique_ids`
accepts exactly the payloads whose server ids plus client id are pairwise
distinct, and `TopologyGraph.unique_ids` accepts exactly the payloads
whose edge ids are pairwise distinct. -/
theorem unique_ids_accepts_iff_nodup (n : TopologyNodes) (g : TopologyGraph) :
    (TopologyNodes.unique_ids n = .ok n ↔
      ((n.servers.map ServerNode.id) ++ [n.client.id]).Nodup) ∧
    (TopologyGraph.unique_ids g = .ok g ↔ (g.edges.map EdgeDef.id).Nodup) := by
  constructor
  · simp only [TopologyNodes.unique_ids]
    split_ifs with h
    · simp only [reduceCtorEq, false_iff]
      intro hn
      rw [← hasDuplicate_eq_false_iff] at hn
      rw [hn] at h
      cases h
    · simp only [true_iff]
      exact (hasDuplicate_eq_false_iff _).mp (by simpa using h)
  · simp only [TopologyGraph.unique_ids]
    split_ifs with h
    · simp only [reduceCtorEq, false_iff]
      intro hn
      rw [← hasDuplicate_eq_false_iff] at hn
      rw [hn] at h
      cases h
    · simp only [true_iff]
      exact (hasDuplicate_eq_false_iff _).mp (by simpa using h)

/-- Claim C9: an `Event` with mismatched kind families is rejected, an
event with `t_start ≥ t_end` is rejected, and an event whose kinds match
(`SERVER_DOWN` with `SERVER_UP`, `NETWORK_SPIKE_START` with
`NETWORK_SPIKE_END`, per `start_to_end`) and whose `t_start < t_end`
(with `t_start ≥ 0`, as its field type imposes) validates successfully. -/
theorem event_validation_kind_family_and_times (e : Event) :
    (e.endMarker.kind ≠ start_to_end e.startMarker.kind →
      ∃ msg, validateEvent e = .error msg) ∧
    (e.endMarker.t_end ≤ e.startMarker.t_start →
      ∃ msg, validateEvent e = .error msg) ∧
    (0 ≤ e.startMarker.t_start →
      e.endMarker.kind = start_to_end e.startMarker.kind →
      e.startMarker.t_start < e.endMarker.t_end →
      validateEvent e = .ok e) := by
  refine ⟨?_, ?_, ?_⟩
  · intro h
    unfold validateEvent
    split_ifs <;> exact ⟨_, rfl⟩
  · intro h
    unfold validateEvent
    split_ifs <;> exact ⟨_, rfl⟩
  · intro h0 hk ht
    unfold validateEvent
    rw [if_neg (not_lt.mpr h0), if_neg, if_neg (by simpa using hk),
      if_neg (not_le.mpr ht)]
    · exact not_le.mpr (lt_of_le_of_lt h0 ht)

/-- Witness for C9: the documented example event
(`SERVER_DOWN` at `120`, `SERVER_UP` at `240`) validates. -/
theorem event_validation_kind_family_and_times_witness :
    ((0 : ℚ) ≤ 120 ∧
      (EndKind.server_up = start_to_end StartKind.server_down) ∧
      (120 : ℚ) < 240) ∧
    validateEvent ⟨"ev-1", "srv-1", ⟨.server_down, 120⟩, ⟨.server_up, 240⟩⟩ =
      .ok ⟨"ev-1", "srv-1", ⟨.server_down, 120⟩, ⟨.server_up, 240⟩⟩ := by
  refine ⟨⟨by norm_num, rfl, by norm_num⟩, ?_⟩
  exact (event_validation_kind_family_and_times
    ⟨"ev-1", "srv-1", ⟨.server_down, 120⟩, ⟨.server_up, 240⟩⟩).2.2
    (by norm_num) rfl (by norm_num)

end AsyncFlow
